import Mathlib

/-!
Verification of the pkghtml package documentation handler.

The Go source consists of one main file (handler, fetch, prepare, update,
ServeHTTP, defaultErrorHandler) and an options file. Strings and byte
slices are embedded as `List Char` / `List Nat`; `time.Time` values as
`Nat`; the external collaborators (`pkgdoc.New`, the renderer, `path.Clean`,
`ioutil.ReadFile`) are explicit function parameters, since they live outside
this repository. The handler's mutable state (`packages map[string]*pkg`,
plus the set of spawned update goroutines) is passed explicitly; `prepare`
runs its whole body inside `h.mu.Lock()/Unlock()`, and `update`'s locked
compare-and-replace section is likewise a single critical section, so each
is embedded as one atomic state transition.
-/

namespace Pkghtml

/-- A Go `error` value as seen by this package: the package compares errors
only against the distinguished value `ErrImport`
(`var ErrImport = errors.New("pkghtml: import failed")`); every other error
value is opaque and is modelled by its message. -/
inductive GoErr where
  | errImport
  | other (msg : String)
deriving DecidableEq, Repr

/-- `pkgdoc.Package` (external collaborator): `fetch` inspects only the
`Name` field; everything else is opaque renderer input, modelled as `body`. -/
structure PkgDoc where
  name : List Char
  body : List Char
deriving DecidableEq, Repr

/-- `pkg`: the cached artifact, `buf []byte` plus `modTime time.Time`. -/
structure pkg where
  buf : List Nat
  modTime : Nat
deriving DecidableEq, Repr

/-- `handler.fetch`: call `pkgdoc.New(name)` (modelled by the `inspect`
parameter, returning the record and an optional error), overwrite the error
with `ErrImport` when the record's `Name` is empty, propagate a non-nil
error, otherwise run the configured renderer and on success build a `pkg`
with `modTime = time.Now()` (the `now` parameter). -/
def fetch (inspect : List Char → PkgDoc × Option GoErr)
    (render : PkgDoc → Except GoErr (List Nat))
    (now : Nat) (name : List Char) : Except GoErr pkg :=
  match (if (inspect name).1.name = [] then some GoErr.errImport
         else (inspect name).2) with
  | some e => Except.error e
  | none =>
    match render (inspect name).1 with
    | Except.error e => Except.error e
    | Except.ok b => Except.ok { buf := b, modTime := now }

/-- Go map read `h.packages[name]` with the `ok` flag, on the association
list embedding of the map. -/
def lookupPkg : List (List Char × pkg) → List Char → Option pkg
  | [], _ => none
  | (k, v) :: rest, name => if k = name then some v else lookupPkg rest name

/-- Go map write `h.packages[name] = p`: replace the binding if present,
otherwise add it. -/
def insertPkg : List (List Char × pkg) → List Char → pkg → List (List Char × pkg)
  | [], name, p => [(name, p)]
  | (k, v) :: rest, name, p =>
      if k = name then (name, p) :: rest else (k, v) :: insertPkg rest name p

/-- The handler's mutable state: the `packages` map and the multiset of
names for which an `update` goroutine (Refresher) has been spawned with
`go h.update(name)`. -/
structure HandlerState where
  packages : List (List Char × pkg)
  refreshers : List (List Char)
deriving DecidableEq, Repr

/-- The state made by `New`: an empty `packages` map, no goroutines. -/
def initState : HandlerState := ⟨[], []⟩

deriving instance DecidableEq for Except

/-- The observable outcome of one `prepare` call: the returned
`(ReadSeeker over p.buf, p.modTime)` or the error, the state after the call,
and how many `h.fetch` calls / `go h.update` spawns the call performed. -/
structure PrepareResult where
  result : Except GoErr (List Nat × Nat)
  state : HandlerState
  fetchCalls : Nat
  refreshersStarted : Nat
deriving DecidableEq, Repr

/-- `handler.prepare`: under `h.mu`, look up `name`; on a hit return the
cached artifact; on a miss call `h.fetch` while still holding the lock, on
error return it with the zero time, on success spawn `go h.update(name)`
and store the artifact, then return it. The whole body holds `h.mu`, so it
is one atomic transition on `HandlerState`. -/
def prepare (inspect : List Char → PkgDoc × Option GoErr)
    (render : PkgDoc → Except GoErr (List Nat))
    (now : Nat) (name : List Char) (s : HandlerState) : PrepareResult :=
  match lookupPkg s.packages name with
  | some p => ⟨Except.ok (p.buf, p.modTime), s, 0, 0⟩
  | none =>
    match fetch inspect render now name with
    | Except.error e => ⟨Except.error e, s, 1, 0⟩
    | Except.ok p =>
        ⟨Except.ok (p.buf, p.modTime),
         ⟨insertPkg s.packages name p, name :: s.refreshers⟩, 1, 1⟩

/-- One cycle of `handler.update`'s loop after the `time.After` tick:
call `h.fetch(name)` outside the lock; on error `continue` (skip the cycle
silently); on success, under `h.mu`, compare `h.packages[name].buf` with
the new bytes and replace the entry only when they differ. Reading
`h.packages[name]` for a missing key yields a nil `*pkg` and dereferencing
its `buf` field would panic; that case is modelled as `none`. -/
def updateCycle (inspect : List Char → PkgDoc × Option GoErr)
    (render : PkgDoc → Except GoErr (List Nat))
    (now : Nat) (name : List Char) (s : HandlerState) : Option HandlerState :=
  match fetch inspect render now name with
  | Except.error _ => some s
  | Except.ok p =>
    match lookupPkg s.packages name with
    | none => none
    | some cur =>
        some (if cur.buf = p.buf then s
              else { s with packages := insertPkg s.packages name p })

/-- The events that mutate a handler's state: a `prepare` call (an HTTP
request being served) or one locked compare-and-replace cycle of a spawned
Refresher. The Refresher step carries the fact that an `update` goroutine
exists for the name, i.e. the name is in `refreshers`. -/
inductive HStep : HandlerState → HandlerState → Prop
  | prep (inspect : List Char → PkgDoc × Option GoErr)
      (render : PkgDoc → Except GoErr (List Nat))
      (now : Nat) (name : List Char) (s : HandlerState) :
      HStep s (prepare inspect render now name s).state
  | refresh (inspect : List Char → PkgDoc × Option GoErr)
      (render : PkgDoc → Except GoErr (List Nat))
      (now : Nat) (name : List Char) (s s' : HandlerState)
      (hmem : name ∈ s.refreshers)
      (hup : updateCycle inspect render now name s = some s') :
      HStep s s'

/-- Zero or more handler events. -/
def Reach (s s' : HandlerState) : Prop := Relation.ReflTransGen HStep s s'

/-- Every name with a spawned Refresher has an entry in the `packages` map. -/
def RefreshersCovered (s : HandlerState) : Prop :=
  ∀ n ∈ s.refreshers, (lookupPkg s.packages n).isSome = true

/-- The last byte `url[len(url)-1]` of a Go string; the call site guarantees
the string is nonempty, so the default for `[]` is never exercised. -/
def lastChar (l : List Char) : Char :=
  match l.reverse with
  | [] => ' '
  | c :: _ => c

/-- The trailing-slash-stripping loop of Go `path.Base`. -/
def stripTrailingSlashes (l : List Char) : List Char :=
  (l.reverse.dropWhile (fun c => c = '/')).reverse

/-- `path[strings.LastIndex(path, "/")+1:]`: what follows the last slash
(the whole string when there is no slash). -/
def afterLastSlash (l : List Char) : List Char :=
  (l.reverse.takeWhile (fun c => c ≠ '/')).reverse

/-- The part of a string up to and including its last slash
(empty when there is no slash). -/
def upToLastSlash (l : List Char) : List Char :=
  (l.reverse.dropWhile (fun c => c ≠ '/')).reverse

/-- Go `path.Base`, used by `ServeHTTP` to build the redirect target:
`.` for the empty string, otherwise strip trailing slashes and keep what
follows the last remaining slash; `/` when nothing remains. -/
def pathBase (l : List Char) : List Char :=
  if l = [] then ['.']
  else if afterLastSlash (stripTrailingSlashes l) = [] then ['/']
  else afterLastSlash (stripTrailingSlashes l)

/-- How a client resolves a relative reference whose path `ref` does not
begin with a slash against a base URL whose path is `base` (the merge step
of RFC 3986 §5.3, for a reference with no scheme and no authority): `ref`
replaces everything after the last slash of `base`. This is the sense in
which the handler's relative `Location` header designates a path. -/
def resolveRelPath (base ref : List Char) : List Char :=
  upToLastSlash base ++ ref

/-- Split a URI reference at its first `?` into path part and query part. -/
def splitAtQuestion (l : List Char) : List Char × List Char :=
  (l.takeWhile (fun c => c ≠ '?'), (l.dropWhile (fun c => c ≠ '?')).drop 1)

/-- What `ServeHTTP` writes to the `ResponseWriter`: a 301 with a
`Location` header, an error status from the error handler, or the cached
content via `http.ServeContent` (which uses `modTime` as the last-modified
value). -/
inductive Response where
  | redirect (status : Nat) (location : List Char)
  | failure (status : Nat)
  | content (buf : List Nat) (modTime : Nat)
deriving DecidableEq, Repr

/-- The observable outcome of one `ServeHTTP` call: the response, the
handler state afterwards, and how many `h.fetch` calls were made. -/
structure ServeResult where
  response : Response
  state : HandlerState
  fetchCalls : Nat
deriving DecidableEq, Repr

/-- `handler.defaultErrorHandler`: `ErrImport` is answered with
`http.StatusNotFound` (404), every other error with
`http.StatusInternalServerError` (500). -/
def defaultErrorHandler (err : GoErr) : Nat :=
  match err with
  | GoErr.errImport => 404
  | _ => 500

/-- The tail of `ServeHTTP`: `buf, modTime, err := h.prepare(name)`; on
error delegate to the error handler, otherwise `http.ServeContent`. -/
def serveName (inspect : List Char → PkgDoc × Option GoErr)
    (render : PkgDoc → Except GoErr (List Nat))
    (now : Nat) (errorHandler : GoErr → Nat)
    (name : List Char) (s : HandlerState) : ServeResult :=
  match prepare inspect render now name s with
  | ⟨Except.error e, s', fc, _⟩ => ⟨Response.failure (errorHandler e), s', fc⟩
  | ⟨Except.ok (b, t), s', fc, _⟩ => ⟨Response.content b t, s', fc⟩

/-- The body of `ServeHTTP` on the slash-prefixed url: redirect when the
url does not end in `/`, otherwise derive the name and serve it. -/
def serveURL (clean : List Char → List Char)
    (inspect : List Char → PkgDoc × Option GoErr)
    (render : PkgDoc → Except GoErr (List Nat))
    (now : Nat) (errorHandler : GoErr → Nat) (hname : List Char)
    (url rawQuery : List Char) (s : HandlerState) : ServeResult :=
  if lastChar url ≠ '/' then
    ⟨Response.redirect 301
      (pathBase url ++ ['/'] ++
        (if rawQuery = [] then [] else '?' :: rawQuery)), s, 0⟩
  else
    serveName inspect render now errorHandler
      (if url = ['/'] then hname else hname ++ clean url) s

/-- `handler.ServeHTTP`: prefix the request path with `/` if needed; if the
last byte is not `/`, answer 301 with `Location: path.Base(url) + "/"` plus
the raw query, touching neither the cache nor the fetcher; otherwise derive
the package name from `h.name` and `path.Clean(url)` (Go's `path.Clean`
is the opaque `clean` parameter) and serve `prepare`'s result, delegating
errors to the error handler. -/
def serveHTTP (clean : List Char → List Char)
    (inspect : List Char → PkgDoc × Option GoErr)
    (render : PkgDoc → Except GoErr (List Nat))
    (now : Nat) (errorHandler : GoErr → Nat) (hname : List Char)
    (reqPath rawQuery : List Char) (s : HandlerState) : ServeResult :=
  serveURL clean inspect render now errorHandler hname
    (if reqPath.head? = some '/' then reqPath else '/' :: reqPath) rawQuery s

/-- The plain-data configuration fields of `handler` that the functional
options read and write. The function-valued fields (`render`,
`errorHandler`) and the mutable `packages` map are modelled as the explicit
parameters of `fetch`, `prepare` and `serveHTTP` above. -/
structure handlerConfig where
  name : List Char
  template : List Char
  stylesheet : List Char
  updateDuration : Nat
deriving DecidableEq, Repr

/-- The `Template` functional option: read the file with `ioutil.ReadFile`
(modelled by the `readFile` parameter; `none` models a non-nil read error)
and replace `h.template` only when the read succeeded (`err == nil`). An
`Option` is a plain `func(*handler)`, so it has no error channel. -/
def Template (readFile : List Char → Option (List Char))
    (filename : List Char) (h : handlerConfig) : handlerConfig :=
  match readFile filename with
  | some b => { h with template := b }
  | none => h

/-- Inspector used for concrete evaluations: resolves every name to a record
whose name is the queried name (so the empty name yields an empty record). -/
def inspectA : List Char → PkgDoc × Option GoErr :=
  fun n => (⟨n, []⟩, none)

/-- Renderer used for concrete evaluations: always succeeds with two bytes. -/
def renderA : PkgDoc → Except GoErr (List Nat) :=
  fun _ => Except.ok [104, 105]

/-- Renderer used for concrete evaluations: always fails. -/
def renderBad : PkgDoc → Except GoErr (List Nat) :=
  fun _ => Except.error (GoErr.other "template execution failed")

/-- Inspector used for concrete evaluations: never resolves any name. -/
def inspectUnresolved : List Char → PkgDoc × Option GoErr :=
  fun _ => (⟨[], []⟩, none)

/-- Concrete state: one cached package under the name `b`. Its payload is
the two bytes `renderA` produces, with creation time `7`. -/
def stateBeta : HandlerState := ⟨[(['b'], ⟨[104, 105], 7⟩)], [['b']]⟩

/-- Concrete state: one cached package under the name `g` whose payload
differs from what `renderA` produces. -/
def stateGamma : HandlerState := ⟨[(['g'], ⟨[80], 3⟩)], [['g']]⟩

theorem lookupPkg_insertPkg (ps : List (List Char × pkg)) (n m : List Char)
    (p : pkg) :
    lookupPkg (insertPkg ps n p) m =
      if m = n then some p else lookupPkg ps m := by
  induction ps with
  | nil =>
      by_cases hm : m = n
      · subst hm
        simp [insertPkg, lookupPkg]
      · have hm' : ¬(n = m) := fun h => hm h.symm
        simp [insertPkg, lookupPkg, hm, hm']
  | cons kv rest ih =>
      obtain ⟨k, v⟩ := kv
      by_cases hk : k = n
      · subst hk
        by_cases hm : m = k
        · subst hm
          simp [insertPkg, lookupPkg]
        · have hm' : ¬(k = m) := fun h => hm h.symm
          simp [insertPkg, lookupPkg, hm, hm']
      · rw [show insertPkg ((k, v) :: rest) n p = (k, v) :: insertPkg rest n p
          from by simp [insertPkg, hk]]
        by_cases hkm : k = m
        · subst hkm
          simp [lookupPkg, hk]
        · simp [lookupPkg, hkm, ih]

/-- C1: `fetch` fails with `ErrImport` exactly when the inspected record's
name is empty, and every other failure it returns is one the inspector or
the renderer produced (classified as the second, internal-error kind by
`defaultErrorHandler`); no third origin of errors escapes `fetch`. The
hypotheses say that the inspector- and renderer-specific errors are their
own kinds, i.e. never the distinguished `ErrImport` value itself. -/
theorem C1_fetch_error_kinds (inspect : List Char → PkgDoc × Option GoErr)
    (render : PkgDoc → Except GoErr (List Nat)) (now : Nat) (name : List Char)
    (hi : ∀ e, (inspect name).2 = some e → e ≠ GoErr.errImport)
    (hr : ∀ d e, render d = Except.error e → e ≠ GoErr.errImport) :
    (fetch inspect render now name = Except.error GoErr.errImport ↔
      (inspect name).1.name = []) ∧
    (∀ e, fetch inspect render now name = Except.error e →
      e = GoErr.errImport ∨ (inspect name).2 = some e ∨
        render (inspect name).1 = Except.error e) := by
  unfold fetch
  by_cases hn : (inspect name).1.name = []
  · rw [if_pos hn]
    exact ⟨⟨fun _ => hn, fun _ => rfl⟩,
      fun e he => Or.inl (Except.error.inj he).symm⟩
  · rw [if_neg hn]
    cases ho : (inspect name).2 with
    | some e =>
        refine ⟨⟨fun h => absurd (Except.error.inj h) (hi e ho),
          fun h => absurd h hn⟩, fun e₂ he₂ => ?_⟩
        exact Or.inr (Or.inl (congrArg some (Except.error.inj he₂)))
    | none =>
        cases hrd : render (inspect name).1 with
        | error e =>
            refine ⟨⟨fun h => absurd (Except.error.inj h) (hr _ e hrd),
              fun h => absurd h hn⟩, fun e₂ he₂ => ?_⟩
            exact Or.inr (Or.inr (congrArg Except.error (Except.error.inj he₂)))
        | ok b =>
            exact ⟨⟨fun h => Except.noConfusion h, fun h => absurd h hn⟩,
              fun e₂ he₂ => Except.noConfusion he₂⟩

/-- Witness for C1 at the empty name: the record is empty and `fetch`
indeed fails with the `ErrImport` kind. -/
theorem C1_fetch_error_kinds_witness :
    (fetch inspectA renderA 0 [] = Except.error GoErr.errImport ↔
      (inspectA []).1.name = []) ∧
    (∀ e, fetch inspectA renderA 0 [] = Except.error e →
      e = GoErr.errImport ∨ (inspectA []).2 = some e ∨
        renderA (inspectA []).1 = Except.error e) :=
  C1_fetch_error_kinds inspectA renderA 0 []
    (fun e h => by simp [inspectA] at h)
    (fun d e h => by simp [renderA] at h)

theorem insertPkg_preserves_present (ps : List (List Char × pkg))
    (n name : List Char) (p : pkg)
    (hp : (lookupPkg ps n).isSome = true) :
    (lookupPkg (insertPkg ps name p) n).isSome = true := by
  rw [lookupPkg_insertPkg]
  by_cases hnn : n = name <;> simp [hnn, hp]

/-- One `prepare` call either leaves the state alone, or (exactly on a
successful miss) inserts the fetched artifact and records one Refresher. -/
theorem prepare_state_cases (inspect : List Char → PkgDoc × Option GoErr)
    (render : PkgDoc → Except GoErr (List Nat))
    (now : Nat) (name : List Char) (s : HandlerState) :
    (prepare inspect render now name s).state = s ∨
    ∃ p, lookupPkg s.packages name = none ∧
      fetch inspect render now name = Except.ok p ∧
      (prepare inspect render now name s).state =
        ⟨insertPkg s.packages name p, name :: s.refreshers⟩ := by
  unfold prepare
  cases hl : lookupPkg s.packages name with
  | some p => exact Or.inl rfl
  | none =>
      cases hf : fetch inspect render now name with
      | error e => exact Or.inl rfl
      | ok p => exact Or.inr ⟨p, rfl, rfl, rfl⟩

/-- One `updateCycle` either leaves the state alone or replaces the entry
for its name, never touching `refreshers`. -/
theorem updateCycle_state_cases
    {inspect : List Char → PkgDoc × Option GoErr}
    {render : PkgDoc → Except GoErr (List Nat)}
    {now : Nat} {name : List Char} {s s' : HandlerState}
    (h : updateCycle inspect render now name s = some s') :
    s' = s ∨ ∃ p, s' = ⟨insertPkg s.packages name p, s.refreshers⟩ := by
  unfold updateCycle at h
  cases hf : fetch inspect render now name with
  | error e =>
      rw [hf] at h
      have h' : some s = some s' := h
      exact Or.inl (Option.some.inj h').symm
  | ok p =>
      rw [hf] at h
      cases hl : lookupPkg s.packages name with
      | none =>
          rw [hl] at h
          exact absurd h (by simp)
      | some cur =>
          rw [hl] at h
          have h' : some (if cur.buf = p.buf then s
              else { s with packages := insertPkg s.packages name p }) =
            some s' := h
          by_cases hb : cur.buf = p.buf
          · rw [if_pos hb] at h'
            exact Or.inl (Option.some.inj h').symm
          · rw [if_neg hb] at h'
            exact Or.inr ⟨p, (Option.some.inj h').symm⟩

theorem hstep_preserves_present {s s' : HandlerState} (h : HStep s s')
    (n : List Char) (hp : (lookupPkg s.packages n).isSome = true) :
    (lookupPkg s'.packages n).isSome = true := by
  cases h with
  | prep inspect render now name =>
      rcases prepare_state_cases inspect render now name s with h1 | ⟨p, _, _, h1⟩
      · rw [h1]
        exact hp
      · rw [h1]
        show (lookupPkg (insertPkg s.packages name p) n).isSome = true
        exact insertPkg_preserves_present s.packages n name p hp
  | refresh inspect render now name t t' hmem hup =>
      rcases updateCycle_state_cases hup with h1 | ⟨p, h1⟩
      · subst h1
        exact hp
      · subst h1
        show (lookupPkg (insertPkg s.packages name p) n).isSome = true
        exact insertPkg_preserves_present s.packages n name p hp

theorem reach_preserves_present {s s' : HandlerState} (h : Reach s s')
    (n : List Char) (hp : (lookupPkg s.packages n).isSome = true) :
    (lookupPkg s'.packages n).isSome = true := by
  unfold Reach at h
  induction h with
  | refl => exact hp
  | tail hab hbc ih => exact hstep_preserves_present hbc n ih

theorem hstep_preserves_covered {s s' : HandlerState} (h : HStep s s')
    (hc : RefreshersCovered s) : RefreshersCovered s' := by
  cases h with
  | prep inspect render now name =>
      rcases prepare_state_cases inspect render now name s with h1 | ⟨p, _, _, h1⟩
      · rw [h1]
        exact hc
      · rw [h1]
        intro n hn
        rcases List.mem_cons.mp hn with h2 | h2
        · subst h2
          show (lookupPkg (insertPkg s.packages n p) n).isSome = true
          rw [lookupPkg_insertPkg]
          simp
        · show (lookupPkg (insertPkg s.packages name p) n).isSome = true
          exact insertPkg_preserves_present s.packages n name p (hc n h2)
  | refresh inspect render now name t t' hmem hup =>
      rcases updateCycle_state_cases hup with h1 | ⟨p, h1⟩
      · subst h1
        exact hc
      · subst h1
        intro n hn
        show (lookupPkg (insertPkg s.packages name p) n).isSome = true
        exact insertPkg_preserves_present s.packages n name p (hc n hn)

theorem reach_covered {s : HandlerState} (h : Reach initState s) :
    RefreshersCovered s := by
  unfold Reach at h
  induction h with
  | refl =>
      intro n hn
      cases hn
  | tail hab hbc ih => exact hstep_preserves_covered hbc ih

/-- C7: on a cache hit, `prepare` returns the cached payload and timestamp,
performs no fetch, starts no Refresher, and leaves the state unchanged. -/
theorem C7_cache_hit_returns_cached
    (inspect : List Char → PkgDoc × Option GoErr)
    (render : PkgDoc → Except GoErr (List Nat))
    (now : Nat) (name : List Char) (s : HandlerState) (p : pkg)
    (hhit : lookupPkg s.packages name = some p) :
    prepare inspect render now name s =
      ⟨Except.ok (p.buf, p.modTime), s, 0, 0⟩ := by
  unfold prepare
  rw [hhit]

/-- Witness for C7: resolving the cached name `b` returns the stored bytes
and timestamp and touches nothing. -/
theorem C7_cache_hit_returns_cached_witness :
    prepare inspectA renderA 9 ['b'] stateBeta =
      ⟨Except.ok ([104, 105], 7), stateBeta, 0, 0⟩ :=
  C7_cache_hit_returns_cached inspectA renderA 9 ['b'] stateBeta
    ⟨[104, 105], 7⟩ (by decide)

/-- C6: when the miss-path fetch fails, `prepare` propagates the error,
creates no entry, starts no Refresher, and a later `prepare` for the same
name performs the fetch again (no negative caching). -/
theorem C6_miss_failure_no_negative_caching
    (inspect : List Char → PkgDoc × Option GoErr)
    (render : PkgDoc → Except GoErr (List Nat))
    (now : Nat) (name : List Char) (s : HandlerState) (e : GoErr)
    (hmiss : lookupPkg s.packages name = none)
    (hfetch : fetch inspect render now name = Except.error e) :
    prepare inspect render now name s = ⟨Except.error e, s, 1, 0⟩ ∧
    (∀ (inspect2 : List Char → PkgDoc × Option GoErr)
       (render2 : PkgDoc → Except GoErr (List Nat)) (now2 : Nat),
       (prepare inspect2 render2 now2 name s).fetchCalls = 1) := by
  constructor
  · unfold prepare
    rw [hmiss, hfetch]
  · intro inspect2 render2 now2
    unfold prepare
    rw [hmiss]
    cases hf : fetch inspect2 render2 now2 name <;> rfl

/-- Witness for C6: an unresolvable name yields `ErrImport`, no entry, and
the next resolve fetches again. -/
theorem C6_miss_failure_no_negative_caching_witness :
    prepare inspectUnresolved renderA 4 ['a'] initState =
      ⟨Except.error GoErr.errImport, initState, 1, 0⟩ ∧
    (∀ (inspect2 : List Char → PkgDoc × Option GoErr)
       (render2 : PkgDoc → Except GoErr (List Nat)) (now2 : Nat),
       (prepare inspect2 render2 now2 ['a'] initState).fetchCalls = 1) :=
  C6_miss_failure_no_negative_caching inspectUnresolved renderA 4 ['a']
    initState GoErr.errImport (by decide) (by decide)

/-- C4: when a Refresher cycle's fetch returns bytes identical to the cached
payload, the cycle leaves the state — in particular the cached entry's
payload and modTime — completely unchanged. -/
theorem C4_identical_payload_unchanged
    (inspect : List Char → PkgDoc × Option GoErr)
    (render : PkgDoc → Except GoErr (List Nat))
    (now : Nat) (name : List Char) (s : HandlerState) (p cur : pkg)
    (hfetch : fetch inspect render now name = Except.ok p)
    (hcur : lookupPkg s.packages name = some cur)
    (heq : cur.buf = p.buf) :
    updateCycle inspect render now name s = some s := by
  unfold updateCycle
  rw [hfetch, hcur]
  show some (if cur.buf = p.buf then s
             else { s with packages := insertPkg s.packages name p }) = some s
  rw [if_pos heq]

/-- Witness for C4: refreshing `b`, whose cached bytes equal what the
renderer produces again, keeps the state (and so the timestamp `7`). -/
theorem C4_identical_payload_unchanged_witness :
    updateCycle inspectA renderA 9 ['b'] stateBeta = some stateBeta :=
  C4_identical_payload_unchanged inspectA renderA 9 ['b'] stateBeta
    ⟨[104, 105], 9⟩ ⟨[104, 105], 7⟩ (by decide) (by decide) (by decide)

/-- C5: when a Refresher cycle's fetch succeeds with different bytes, the
cached entry is replaced by the new artifact (payload and modTime), and the
next `prepare` for that name returns the new payload and timestamp without
touching anything. -/
theorem C5_changed_payload_propagates
    (inspect : List Char → PkgDoc × Option GoErr)
    (render : PkgDoc → Except GoErr (List Nat))
    (now : Nat) (name : List Char) (s : HandlerState) (p cur : pkg)
    (hfetch : fetch inspect render now name = Except.ok p)
    (hcur : lookupPkg s.packages name = some cur)
    (hne : cur.buf ≠ p.buf) :
    updateCycle inspect render now name s =
      some ⟨insertPkg s.packages name p, s.refreshers⟩ ∧
    lookupPkg (insertPkg s.packages name p) name = some p ∧
    (∀ (inspect2 : List Char → PkgDoc × Option GoErr)
       (render2 : PkgDoc → Except GoErr (List Nat)) (now2 : Nat),
       prepare inspect2 render2 now2 name
           ⟨insertPkg s.packages name p, s.refreshers⟩ =
         ⟨Except.ok (p.buf, p.modTime),
          ⟨insertPkg s.packages name p, s.refreshers⟩, 0, 0⟩) := by
  have hl : lookupPkg (insertPkg s.packages name p) name = some p := by
    rw [lookupPkg_insertPkg]
    simp
  refine ⟨?_, hl, ?_⟩
  · unfold updateCycle
    rw [hfetch, hcur]
    show some (if cur.buf = p.buf then s
               else { s with packages := insertPkg s.packages name p }) =
      some ⟨insertPkg s.packages name p, s.refreshers⟩
    rw [if_neg hne]
  · intro inspect2 render2 now2
    unfold prepare
    simp only [hl]

/-- Witness for C5: refreshing `g` with new bytes replaces the entry, and
the next resolve of `g` observes the new payload and time. -/
theorem C5_changed_payload_propagates_witness :
    updateCycle inspectA renderA 5 ['g'] stateGamma =
      some ⟨insertPkg stateGamma.packages ['g'] ⟨[104, 105], 5⟩,
            stateGamma.refreshers⟩ ∧
    lookupPkg (insertPkg stateGamma.packages ['g'] ⟨[104, 105], 5⟩) ['g'] =
      some ⟨[104, 105], 5⟩ ∧
    (∀ (inspect2 : List Char → PkgDoc × Option GoErr)
       (render2 : PkgDoc → Except GoErr (List Nat)) (now2 : Nat),
       prepare inspect2 render2 now2 ['g']
           ⟨insertPkg stateGamma.packages ['g'] ⟨[104, 105], 5⟩,
            stateGamma.refreshers⟩ =
         ⟨Except.ok ([104, 105], 5),
          ⟨insertPkg stateGamma.packages ['g'] ⟨[104, 105], 5⟩,
           stateGamma.refreshers⟩, 0, 0⟩) :=
  C5_changed_payload_propagates inspectA renderA 5 ['g'] stateGamma
    ⟨[104, 105], 5⟩ ⟨[80], 3⟩ (by decide) (by decide) (by decide)

/-- C9: in any state reachable from the fresh handler, whenever a Refresher
cycle runs for a name it was spawned for, the locked compare-and-replace
step finds an entry for that name in `packages` — the `h.packages[name]`
read never yields a nil `*pkg`, so the `.buf` dereference cannot panic.
(The entry is inserted by `prepare` in the same critical section that
spawns the Refresher, and entries are never removed.) -/
theorem C9_refresher_never_nil (s : HandlerState) (hreach : Reach initState s)
    (name : List Char) (hmem : name ∈ s.refreshers)
    (inspect : List Char → PkgDoc × Option GoErr)
    (render : PkgDoc → Except GoErr (List Nat)) (now : Nat) :
    (updateCycle inspect render now name s).isSome = true := by
  have hp := reach_covered hreach name hmem
  unfold updateCycle
  cases hf : fetch inspect render now name with
  | error e => rfl
  | ok p =>
      rcases Option.isSome_iff_exists.mp hp with ⟨cur, hcur⟩
      rw [hcur]
      rfl

/-- Witness for C9: after one successful `prepare` of the name `a`, the
Refresher cycle for `a` finds its entry. -/
theorem C9_refresher_never_nil_witness :
    (updateCycle inspectA renderA 1 ['a']
      (prepare inspectA renderA 0 ['a'] initState).state).isSome = true :=
  C9_refresher_never_nil (prepare inspectA renderA 0 ['a'] initState).state
    (Relation.ReflTransGen.single (HStep.prep inspectA renderA 0 ['a'] initState))
    ['a'] (by decide) inspectA renderA 1

/-- C3: for a name never seen before, the first (serialized) `prepare`
performs exactly one fetch and spawns exactly one Refresher; the second of
two concurrent `prepare` calls for the same name — which `h.mu`, held for
the whole miss path, forces to run after the first — performs no fetch and
spawns nothing; and after any further sequence of handler events, a
`prepare` for that name never fetches and never spawns another Refresher. -/
theorem C3_one_fetch_one_refresher
    (inspect : List Char → PkgDoc × Option GoErr)
    (render : PkgDoc → Except GoErr (List Nat))
    (now : Nat) (name : List Char) (s : HandlerState) (p : pkg)
    (hmiss : lookupPkg s.packages name = none)
    (href : name ∉ s.refreshers)
    (hfetch : fetch inspect render now name = Except.ok p) :
    prepare inspect render now name s =
      ⟨Except.ok (p.buf, p.modTime),
       ⟨insertPkg s.packages name p, name :: s.refreshers⟩, 1, 1⟩ ∧
    (name :: s.refreshers).count name = 1 ∧
    (∀ (inspect2 : List Char → PkgDoc × Option GoErr)
       (render2 : PkgDoc → Except GoErr (List Nat)) (now2 : Nat),
       prepare inspect2 render2 now2 name
           ⟨insertPkg s.packages name p, name :: s.refreshers⟩ =
         ⟨Except.ok (p.buf, p.modTime),
          ⟨insertPkg s.packages name p, name :: s.refreshers⟩, 0, 0⟩) ∧
    (∀ s', Reach ⟨insertPkg s.packages name p, name :: s.refreshers⟩ s' →
      ∀ (inspect2 : List Char → PkgDoc × Option GoErr)
        (render2 : PkgDoc → Except GoErr (List Nat)) (now2 : Nat),
        (prepare inspect2 render2 now2 name s').fetchCalls = 0 ∧
        (prepare inspect2 render2 now2 name s').refreshersStarted = 0) := by
  have hl : lookupPkg (insertPkg s.packages name p) name = some p := by
    rw [lookupPkg_insertPkg]
    simp
  refine ⟨?_, ?_, ?_, ?_⟩
  · unfold prepare
    rw [hmiss, hfetch]
  · rw [List.count_cons_self, List.count_eq_zero.mpr href]
  · intro inspect2 render2 now2
    unfold prepare
    simp only [hl]
  · intro s' hreach inspect2 render2 now2
    have hp : (lookupPkg s'.packages name).isSome = true := by
      refine reach_preserves_present hreach name ?_
      show (lookupPkg (insertPkg s.packages name p) name).isSome = true
      rw [hl]
      rfl
    rcases Option.isSome_iff_exists.mp hp with ⟨q, hq⟩
    constructor
    · unfold prepare
      rw [hq]
    · unfold prepare
      rw [hq]

/-- Witness for C3 at the never-seen name `a` on the fresh handler. -/
theorem C3_one_fetch_one_refresher_witness :
    prepare inspectA renderA 0 ['a'] initState =
      ⟨Except.ok ([104, 105], 0),
       ⟨insertPkg initState.packages ['a'] ⟨[104, 105], 0⟩,
        ['a'] :: initState.refreshers⟩, 1, 1⟩ ∧
    (['a'] :: initState.refreshers).count ['a'] = 1 ∧
    (∀ (inspect2 : List Char → PkgDoc × Option GoErr)
       (render2 : PkgDoc → Except GoErr (List Nat)) (now2 : Nat),
       prepare inspect2 render2 now2 ['a']
           ⟨insertPkg initState.packages ['a'] ⟨[104, 105], 0⟩,
            ['a'] :: initState.refreshers⟩ =
         ⟨Except.ok ([104, 105], 0),
          ⟨insertPkg initState.packages ['a'] ⟨[104, 105], 0⟩,
           ['a'] :: initState.refreshers⟩, 0, 0⟩) ∧
    (∀ s', Reach ⟨insertPkg initState.packages ['a'] ⟨[104, 105], 0⟩,
        ['a'] :: initState.refreshers⟩ s' →
      ∀ (inspect2 : List Char → PkgDoc × Option GoErr)
        (render2 : PkgDoc → Except GoErr (List Nat)) (now2 : Nat),
        (prepare inspect2 render2 now2 ['a'] s').fetchCalls = 0 ∧
        (prepare inspect2 render2 now2 ['a'] s').refreshersStarted = 0) :=
  C3_one_fetch_one_refresher inspectA renderA 0 ['a'] initState
    ⟨[104, 105], 0⟩ (by decide) (by decide) (by decide)

theorem upToLastSlash_append_afterLastSlash (l : List Char) :
    upToLastSlash l ++ afterLastSlash l = l := by
  unfold upToLastSlash afterLastSlash
  rw [← List.reverse_append, List.takeWhile_append_dropWhile,
    List.reverse_reverse]

theorem stripTrailingSlashes_eq_self {l : List Char} (hne : l ≠ [])
    (hlast : lastChar l ≠ '/') : stripTrailingSlashes l = l := by
  unfold stripTrailingSlashes
  cases hr : l.reverse with
  | nil => exact absurd (List.reverse_eq_nil_iff.mp hr) hne
  | cons c t =>
      have hc : lastChar l = c := by
        unfold lastChar
        rw [hr]
      rw [List.dropWhile_cons, if_neg (by simpa using hc ▸ hlast), ← hr,
        List.reverse_reverse]

theorem afterLastSlash_ne_nil {l : List Char} (hne : l ≠ [])
    (hlast : lastChar l ≠ '/') : afterLastSlash l ≠ [] := by
  unfold afterLastSlash
  cases hr : l.reverse with
  | nil => exact absurd (List.reverse_eq_nil_iff.mp hr) hne
  | cons c t =>
      have hc : lastChar l = c := by
        unfold lastChar
        rw [hr]
      rw [List.takeWhile_cons, if_pos (by simpa using hc ▸ hlast)]
      simp

theorem pathBase_of_not_slash {l : List Char} (hne : l ≠ [])
    (hlast : lastChar l ≠ '/') : pathBase l = afterLastSlash l := by
  unfold pathBase
  rw [if_neg hne, stripTrailingSlashes_eq_self hne hlast,
    if_neg (afterLastSlash_ne_nil hne hlast)]

theorem resolveRelPath_pathBase {l : List Char} (hne : l ≠ [])
    (hlast : lastChar l ≠ '/') :
    resolveRelPath l (pathBase l ++ ['/']) = l ++ ['/'] := by
  rw [pathBase_of_not_slash hne hlast]
  unfold resolveRelPath
  rw [← List.append_assoc, upToLastSlash_append_afterLastSlash]

theorem mem_afterLastSlash {x : Char} {l : List Char}
    (hx : x ∈ afterLastSlash l) : x ∈ l := by
  unfold afterLastSlash at hx
  rw [List.mem_reverse] at hx
  have h2 := (List.takeWhile_prefix _).sublist.subset hx
  rwa [List.mem_reverse] at h2

theorem splitAtQuestion_no_question {a : List Char} (ha : '?' ∉ a) :
    splitAtQuestion a = (a, []) := by
  unfold splitAtQuestion
  have h1 : a.takeWhile (fun c => c ≠ '?') = a :=
    List.takeWhile_eq_self_iff.mpr (fun x hx => by
      have hx2 : x ≠ '?' := fun h => ha (h ▸ hx)
      simpa using hx2)
  have h2 : a.dropWhile (fun c => c ≠ '?') = [] :=
    List.dropWhile_eq_nil_iff.mpr (fun x hx => by
      have hx2 : x ≠ '?' := fun h => ha (h ▸ hx)
      simpa using hx2)
  rw [h1, h2]
  rfl

theorem takeWhile_until_question (q : List Char) :
    ∀ a : List Char, '?' ∉ a →
      (a ++ '?' :: q).takeWhile (fun c => c ≠ '?') = a := by
  intro a
  induction a with
  | nil =>
      intro _
      simp [List.takeWhile_cons]
  | cons c t ih =>
      intro ha
      have hc : (c : Char) ≠ '?' := fun h => ha (by simp [h])
      have ht : '?' ∉ t := fun h => ha (List.mem_cons_of_mem c h)
      rw [List.cons_append, List.takeWhile_cons, if_pos (by simpa using hc),
        ih ht]

theorem dropWhile_until_question (q : List Char) :
    ∀ a : List Char, '?' ∉ a →
      (a ++ '?' :: q).dropWhile (fun c => c ≠ '?') = '?' :: q := by
  intro a
  induction a with
  | nil =>
      intro _
      simp [List.dropWhile_cons]
  | cons c t ih =>
      intro ha
      have hc : (c : Char) ≠ '?' := fun h => ha (by simp [h])
      have ht : '?' ∉ t := fun h => ha (List.mem_cons_of_mem c h)
      rw [List.cons_append, List.dropWhile_cons, if_pos (by simpa using hc),
        ih ht]

theorem splitAtQuestion_append {a : List Char} (q : List Char)
    (ha : '?' ∉ a) : splitAtQuestion (a ++ '?' :: q) = (a, q) := by
  unfold splitAtQuestion
  rw [takeWhile_until_question q a ha, dropWhile_until_question q a ha]
  rfl

theorem question_not_mem_pathBase {l : List Char} (hne : l ≠ [])
    (hlast : lastChar l ≠ '/') (hq : '?' ∉ l) : '?' ∉ pathBase l := by
  rw [pathBase_of_not_slash hne hlast]
  exact fun h => hq (mem_afterLastSlash h)

/-- C2: a GET whose URL path does not end in `/` is answered with HTTP 301
and `Location: path.Base(path) + "/"` plus the raw query after a `?`.
Splitting that `Location` at its `?` gives back the raw query unchanged,
and its path component, resolved as a relative reference against the
request path, designates the request path with a trailing slash appended.
The handler state is returned untouched with zero fetches, for every
`clean`, `inspect`, `render` and state: the redirect branch returns before
any cache lookup or fetch. -/
theorem C2_redirect_adds_trailing_slash
    (clean : List Char → List Char)
    (inspect : List Char → PkgDoc × Option GoErr)
    (render : PkgDoc → Except GoErr (List Nat))
    (now : Nat) (errorHandler : GoErr → Nat) (hname : List Char)
    (reqPath rawQuery : List Char) (s : HandlerState)
    (hpre : reqPath.head? = some '/')
    (hlast : lastChar reqPath ≠ '/')
    (hq : '?' ∉ reqPath) :
    serveHTTP clean inspect render now errorHandler hname reqPath rawQuery s =
      ⟨Response.redirect 301
        (pathBase reqPath ++ ['/'] ++
          (if rawQuery = [] then [] else '?' :: rawQuery)), s, 0⟩ ∧
    splitAtQuestion (pathBase reqPath ++ ['/'] ++
        (if rawQuery = [] then [] else '?' :: rawQuery)) =
      (pathBase reqPath ++ ['/'], rawQuery) ∧
    resolveRelPath reqPath (pathBase reqPath ++ ['/']) = reqPath ++ ['/'] := by
  have hne : reqPath ≠ [] := by
    intro h
    rw [h] at hpre
    exact Option.noConfusion hpre
  have hq2 : '?' ∉ pathBase reqPath ++ ['/'] := by
    intro hmem
    rcases List.mem_append.mp hmem with h | h
    · exact question_not_mem_pathBase hne hlast hq h
    · simp at h
  refine ⟨?_, ?_, resolveRelPath_pathBase hne hlast⟩
  · unfold serveHTTP
    rw [if_pos hpre]
    unfold serveURL
    rw [if_pos hlast]
  · by_cases hqe : rawQuery = []
    · rw [if_pos hqe, List.append_nil]
      rw [splitAtQuestion_no_question hq2, hqe]
    · rw [if_neg hqe]
      exact splitAtQuestion_append rawQuery hq2

/-- Witness for C2 at the path `/ab` with query `x=1`. -/
theorem C2_redirect_adds_trailing_slash_witness :
    serveHTTP (fun l => l) inspectA renderA 0 defaultErrorHandler ['n']
        ['/', 'a', 'b'] ['x', '=', '1'] initState =
      ⟨Response.redirect 301
        (pathBase ['/', 'a', 'b'] ++ ['/'] ++
          (if (['x', '=', '1'] : List Char) = [] then []
           else '?' :: ['x', '=', '1'])), initState, 0⟩ ∧
    splitAtQuestion (pathBase ['/', 'a', 'b'] ++ ['/'] ++
        (if (['x', '=', '1'] : List Char) = [] then []
         else '?' :: ['x', '=', '1'])) =
      (pathBase ['/', 'a', 'b'] ++ ['/'], ['x', '=', '1']) ∧
    resolveRelPath ['/', 'a', 'b'] (pathBase ['/', 'a', 'b'] ++ ['/']) =
      ['/', 'a', 'b'] ++ ['/'] :=
  C2_redirect_adds_trailing_slash (fun l => l) inspectA renderA 0
    defaultErrorHandler ['n'] ['/', 'a', 'b'] ['x', '=', '1'] initState
    (by decide) (by decide) (by decide)

/-- C8: on a trailing-slash request, the error callback is invoked exactly
when resolution fails — a failing `prepare` yields the callback's status
and a successful one is served as content — and the default callback maps
`ErrImport` to 404 (not found) and every other error to 500 (internal
error). -/
theorem C8_error_callback_mapping
    (clean : List Char → List Char)
    (inspect : List Char → PkgDoc × Option GoErr)
    (render : PkgDoc → Except GoErr (List Nat))
    (now : Nat) (hname : List Char)
    (reqPath rawQuery : List Char) (s : HandlerState)
    (hpre : reqPath.head? = some '/')
    (hlast : lastChar reqPath = '/')
    (name : List Char)
    (hn : name = if reqPath = ['/'] then hname else hname ++ clean reqPath) :
    (∀ e, defaultErrorHandler e = if e = GoErr.errImport then 404 else 500) ∧
    (∀ e, (prepare inspect render now name s).result = Except.error e →
      serveHTTP clean inspect render now defaultErrorHandler hname reqPath
          rawQuery s =
        ⟨Response.failure (defaultErrorHandler e),
         (prepare inspect render now name s).state,
         (prepare inspect render now name s).fetchCalls⟩) ∧
    (∀ b t, (prepare inspect render now name s).result = Except.ok (b, t) →
      serveHTTP clean inspect render now defaultErrorHandler hname reqPath
          rawQuery s =
        ⟨Response.content b t,
         (prepare inspect render now name s).state,
         (prepare inspect render now name s).fetchCalls⟩) := by
  subst hn
  refine ⟨?_, ?_, ?_⟩
  · intro e
    cases e with
    | errImport => simp [defaultErrorHandler]
    | other msg => simp [defaultErrorHandler]
  · intro e hres
    unfold serveHTTP
    rw [if_pos hpre]
    unfold serveURL
    rw [if_neg (not_not_intro hlast)]
    unfold serveName
    cases hp : prepare inspect render now
        (if reqPath = ['/'] then hname else hname ++ clean reqPath) s with
    | mk res st fc rs =>
        rw [hp] at hres
        simp only at hres
        subst hres
        rfl
  · intro b t hres
    unfold serveHTTP
    rw [if_pos hpre]
    unfold serveURL
    rw [if_neg (not_not_intro hlast)]
    unfold serveName
    cases hp : prepare inspect render now
        (if reqPath = ['/'] then hname else hname ++ clean reqPath) s with
    | mk res st fc rs =>
        rw [hp] at hres
        simp only at hres
        subst hres
        rfl

/-- Witness for C8 at the root path on a handler whose inspector never
resolves, so resolution fails with `ErrImport` and the response is the
default callback's 404. -/
theorem C8_error_callback_mapping_witness :
    (∀ e, defaultErrorHandler e = if e = GoErr.errImport then 404 else 500) ∧
    (∀ e, (prepare inspectUnresolved renderA 2 ['n'] initState).result =
        Except.error e →
      serveHTTP (fun l => l) inspectUnresolved renderA 2 defaultErrorHandler
          ['n'] ['/'] [] initState =
        ⟨Response.failure (defaultErrorHandler e),
         (prepare inspectUnresolved renderA 2 ['n'] initState).state,
         (prepare inspectUnresolved renderA 2 ['n'] initState).fetchCalls⟩) ∧
    (∀ b t, (prepare inspectUnresolved renderA 2 ['n'] initState).result =
        Except.ok (b, t) →
      serveHTTP (fun l => l) inspectUnresolved renderA 2 defaultErrorHandler
          ['n'] ['/'] [] initState =
        ⟨Response.content b t,
         (prepare inspectUnresolved renderA 2 ['n'] initState).state,
         (prepare inspectUnresolved renderA 2 ['n'] initState).fetchCalls⟩) :=
  C8_error_callback_mapping (fun l => l) inspectUnresolved renderA 2 ['n']
    ['/'] [] initState (by decide) (by decide) ['n'] (by decide)

/-- C10: when the template file cannot be read, the `Template` option
leaves the handler — in particular its configured or default template —
completely unchanged; being a plain `func(*handler)` it cannot fail or
surface the read error. -/
theorem C10_template_read_failure_ignored
    (readFile : List Char → Option (List Char))
    (filename : List Char) (h : handlerConfig)
    (hfail : readFile filename = none) :
    Template readFile filename h = h := by
  unfold Template
  rw [hfail]

/-- Witness for C10: an always-failing read leaves a concrete handler
configuration untouched. -/
theorem C10_template_read_failure_ignored_witness :
    Template (fun _ => none) ['t'] ⟨['n'], ['d'], [], 3600⟩ =
      ⟨['n'], ['d'], [], 3600⟩ :=
  C10_template_read_failure_ignored (fun _ => none) ['t']
    ⟨['n'], ['d'], [], 3600⟩ rfl

end Pkghtml
